import Mathlib

/-
Verification of the graph query engine of the Dash-Plus Notes repository.

The engine (`GraphQueries` in the source) traverses a directed, possibly
cyclic graph whose nodes are tasks and whose edges are typed links, on top
of a localStorage data layer (`TaskStore`, `LinkStore`).  This file embeds
the data model and the engine's queries as executable Lean functions and
proves (or refutes) the specified properties about them.

Modelling conventions:
- Ids are `String`s.  The JS store filters test ids for truthiness
  (`if (filters.targetId) ...`); ids produced by the data layer are
  non-empty UUIDs, so truthiness coincides with presence and we model the
  filters as `Option String`.
- Task fields never read by the engine (description, priority, tags, ...)
  are omitted.  `createdAt` is kept because `TaskStore.getAll` sorts by it
  (default sort field, descending) before paginating; it is modelled as a
  natural-number timestamp, order-isomorphic to the stored ISO-8601 strings
  (lexicographic order on those strings is chronological order).
- `Array.prototype.sort` is stable (ES2019).  With a consistent comparator
  the stable sorted permutation is unique, so a stable insertion sort
  produces the same list as the JS sort.
- Link `strength` is an optional rational (the data layer validates it into
  [0,1]); JS numeric truthiness (`link.strength || 1`) is modelled by
  `jsOr`, which treats both `none` and `some 0` as falsy.
- `TaskStore.getById` throws on a missing id and every engine call site
  wraps it in try/catch and skips; we model it as `Option Task` and the
  call sites match on it.
- Recursive traversals carry an explicit fuel argument.  The public
  wrappers instantiate the fuel with a bound proven sufficient (the
  termination claim); the depth-limited walkers need `depth`-many steps and
  the DFS cycle detectors at most one step per distinct node.
-/

namespace DashPlus

-- ============================================================================
-- DATA MODEL (src/src/storage/localStorage.js)
-- ============================================================================

structure Task where
  id : String
  content : String
  status : String
  symbol : String
  projectId : Option String
  createdAt : Nat
deriving DecidableEq, Repr, Inhabited

structure Link where
  id : String
  sourceId : String
  targetId : String
  linkType : String
  label : Option String
  strength : Option Rat
deriving DecidableEq, Repr, Inhabited

/-- The read-only snapshot of the localStorage collections the engine
consumes: `dashplus:tasks` and `dashplus:links`, in insertion order. -/
structure Store where
  tasks : List Task
  links : List Link
deriving DecidableEq, Repr, Inhabited

namespace TaskStore

/-- `TaskStore.getById`: `items.find(item => item.id === id)`; the source
throws when the task is missing and all engine call sites catch and skip,
so the model returns `Option`. -/
def getById (g : Store) (id : String) : Option Task :=
  g.tasks.find? (fun t => t.id == id)

/-- The default sort comparator of `TaskStore.getAll`: sort field
`createdAt` (always present), order `desc`, i.e. the negated three-way
comparison of the field values. -/
def comparatorDesc (a b : Task) : Int :=
  -(if a.createdAt < b.createdAt then (-1 : Int)
    else if b.createdAt < a.createdAt then 1 else 0)

/-- Stable insertion into a comparator-sorted list: the new element goes in
front of the first element it does not strictly follow. -/
def insertSorted (x : Task) : List Task → List Task
  | [] => [x]
  | y :: ys => if comparatorDesc x y ≤ 0 then x :: y :: ys else y :: insertSorted x ys

/-- Stable sort by `comparatorDesc`; agrees with the (stable) JS
`tasks.sort(comparator)`. -/
def sortTasks : List Task → List Task
  | [] => []
  | x :: xs => insertSorted x (sortTasks xs)

/-- `TaskStore.getAll(filters)` as called by the engine (no entity filters,
only `pageSize`): sort by `createdAt` descending, then paginate with
`page = 1` and `pageSize = Math.min(filters.pageSize || 50, 200)`.  The
`min(_, 200)` clamp applies to every caller, including the engine's
`{ pageSize: 10000 }` full scans. -/
def getAll (g : Store) (pageSize : Option Nat) : List Task :=
  let sorted := sortTasks g.tasks
  let ps := min (match pageSize with
    | some n => if n = 0 then 50 else n
    | none => 50) 200
  sorted.take ps

end TaskStore

/-- The filter object accepted by `LinkStore.getAll`. -/
structure LinkFilters where
  sourceId : Option String := none
  targetId : Option String := none
  linkType : Option String := none
  entityId : Option String := none
deriving DecidableEq, Repr

namespace LinkStore

/-- `LinkStore.getAll(filters)`: successive filters over the stored links,
in source order (sourceId, targetId, linkType, then bidirectional
entityId), preserving storage order. -/
def getAll (g : Store) (f : LinkFilters) : List Link :=
  let ls := g.links
  let ls := match f.sourceId with
    | some s => ls.filter (fun l => l.sourceId == s)
    | none => ls
  let ls := match f.targetId with
    | some t => ls.filter (fun l => l.targetId == t)
    | none => ls
  let ls := match f.linkType with
    | some ty => ls.filter (fun l => l.linkType == ty)
    | none => ls
  let ls := match f.entityId with
    | some e => ls.filter (fun l => l.sourceId == e || l.targetId == e)
    | none => ls
  ls

end LinkStore

-- ============================================================================
-- GRAPH QUERIES (src/unnamed/part_002, class GraphQueries)
-- ============================================================================

/-- Options of `getBacklinks` / `getForwardLinks` with their destructuring
defaults (`linkType = null, depth = 1, includeIndirect = false`). -/
structure QueryOptions where
  linkType : Option String := none
  depth : Int := 1
  includeIndirect : Bool := false
deriving DecidableEq, Repr

/-- A `{link, task, depth}` traversal result record. -/
structure TraversalRecord where
  link : Link
  task : Task
  depth : Int
deriving DecidableEq, Repr

structure BacklinksResult where
  taskId : String
  backlinks : List TraversalRecord
  count : Nat
deriving DecidableEq, Repr

structure ForwardLinksResult where
  taskId : String
  forwardLinks : List TraversalRecord
  count : Nat
deriving DecidableEq, Repr

/-- Mutable state of the backlink / forward-link walkers: the `visited` set
and the `results` accumulator. -/
structure WalkState where
  visited : List String
  results : List TraversalRecord
deriving DecidableEq, Repr

/-- `link.linkType !== linkType` guard of the walkers (skip when a filter
is given and the type differs). -/
def typeRejects (lt : Option String) (l : Link) : Bool :=
  match lt with
  | some t => l.linkType != t
  | none => false

namespace GraphQueries

/-- The inner `traverse` closure of `getBacklinks`: follow links pointing
TO the current task, push a record per link whose source task resolves, and
recurse on the source while `includeIndirect && currentDepth < depth`. -/
def backlinksGo (g : Store) (opts : QueryOptions) :
    Nat → String → Int → WalkState → WalkState
  | 0, _, _, st => st
  | fuel+1, cur, d, st =>
    if d > opts.depth then st
    else if cur ∈ st.visited then st
    else
      let st1 : WalkState := { st with visited := st.visited ++ [cur] }
      let links := LinkStore.getAll g { targetId := some cur }
      links.foldl (fun s link =>
        if typeRejects opts.linkType link then s
        else
          match TaskStore.getById g link.sourceId with
          | none => s
          | some sourceTask =>
            let s1 : WalkState := { s with results := s.results ++ [⟨link, sourceTask, d⟩] }
            if opts.includeIndirect ∧ d < opts.depth then
              backlinksGo g opts fuel link.sourceId (d + 1) s1
            else s1) st1

/-- Sufficient fuel for `backlinksGo` started at depth 1. -/
def backlinksFuel (opts : QueryOptions) : Nat := opts.depth.toNat + 1

def getBacklinksF (fuel : Nat) (g : Store) (taskId : String) (opts : QueryOptions) :
    BacklinksResult :=
  let st := backlinksGo g opts fuel taskId 1 ⟨[], []⟩
  ⟨taskId, st.results, st.results.length⟩

/-- `GraphQueries.getBacklinks(taskId, options)`. -/
def getBacklinks (g : Store) (taskId : String) (opts : QueryOptions) : BacklinksResult :=
  getBacklinksF (backlinksFuel opts) g taskId opts

/-- The inner `traverse` closure of `getForwardLinks` (mirror of
`backlinksGo` along outgoing links). -/
def forwardGo (g : Store) (opts : QueryOptions) :
    Nat → String → Int → WalkState → WalkState
  | 0, _, _, st => st
  | fuel+1, cur, d, st =>
    if d > opts.depth then st
    else if cur ∈ st.visited then st
    else
      let st1 : WalkState := { st with visited := st.visited ++ [cur] }
      let links := LinkStore.getAll g { sourceId := some cur }
      links.foldl (fun s link =>
        if typeRejects opts.linkType link then s
        else
          match TaskStore.getById g link.targetId with
          | none => s
          | some targetTask =>
            let s1 : WalkState := { s with results := s.results ++ [⟨link, targetTask, d⟩] }
            if opts.includeIndirect ∧ d < opts.depth then
              forwardGo g opts fuel link.targetId (d + 1) s1
            else s1) st1

def getForwardLinksF (fuel : Nat) (g : Store) (taskId : String) (opts : QueryOptions) :
    ForwardLinksResult :=
  let st := forwardGo g opts fuel taskId 1 ⟨[], []⟩
  ⟨taskId, st.results, st.results.length⟩

/-- `GraphQueries.getForwardLinks(taskId, options)`. -/
def getForwardLinks (g : Store) (taskId : String) (opts : QueryOptions) : ForwardLinksResult :=
  getForwardLinksF (backlinksFuel opts) g taskId opts

end GraphQueries

-- ----------------------------------------------------------------------------
-- Related graph (bidirectional neighborhood)
-- ----------------------------------------------------------------------------

/-- Options of `getRelatedGraph` (`depth = 2, linkTypes = null`; the
destructured `includeProjects` option is never read by the body and is
omitted). -/
structure RelatedOptions where
  depth : Int := 2
  linkTypes : Option (List String) := none
deriving DecidableEq, Repr

/-- A node summary stored in the `nodes` map of `getRelatedGraph`. -/
structure GraphNode where
  id : String
  type : String
  symbol : String
  content : String
  status : String
  projectId : Option String
deriving DecidableEq, Repr

/-- An edge summary pushed onto the `edges` array of `getRelatedGraph`. -/
structure GraphEdge where
  id : String
  source : String
  target : String
  linkType : String
  label : Option String
  strength : Option Rat
deriving DecidableEq, Repr

/-- `linkTypes && !linkTypes.includes(link.linkType)` inclusion filter. -/
def typesReject (lts : Option (List String)) (l : Link) : Bool :=
  match lts with
  | some ts => !(ts.contains l.linkType)
  | none => false

def edgeOfLink (l : Link) : GraphEdge :=
  ⟨l.id, l.sourceId, l.targetId, l.linkType, l.label, l.strength⟩

/-- State of the `getRelatedGraph` traversal: visited set, node map (in
insertion order; each id is inserted at most once thanks to the visited
set) and edge array. -/
structure RelatedState where
  visited : List String
  nodes : List GraphNode
  edges : List GraphEdge
deriving DecidableEq, Repr

namespace GraphQueries

/-- The inner `traverse` closure of `getRelatedGraph`: add the current
task's node, push every outgoing edge unconditionally and recurse on its
target, then push every incoming edge not already present (by link id) and
recurse on its source. -/
def relatedGo (g : Store) (ropts : RelatedOptions) :
    Nat → String → Int → RelatedState → RelatedState
  | 0, _, _, st => st
  | fuel+1, cur, d, st =>
    if d > ropts.depth then st
    else if cur ∈ st.visited then st
    else
      let st1 : RelatedState := { st with visited := st.visited ++ [cur] }
      match TaskStore.getById g cur with
      | none => st1
      | some task =>
        let st2 : RelatedState := { st1 with nodes := st1.nodes ++
          [⟨task.id, "task", task.symbol, task.content, task.status, task.projectId⟩] }
        let outgoing := LinkStore.getAll g { sourceId := some cur }
        let st3 := outgoing.foldl (fun s link =>
          if typesReject ropts.linkTypes link then s
          else
            let s1 : RelatedState := { s with edges := s.edges ++ [edgeOfLink link] }
            relatedGo g ropts fuel link.targetId (d + 1) s1) st2
        let incoming := LinkStore.getAll g { targetId := some cur }
        incoming.foldl (fun s link =>
          if typesReject ropts.linkTypes link then s
          else
            let s1 : RelatedState :=
              if s.edges.any (fun e => e.id == link.id) then s
              else { s with edges := s.edges ++ [edgeOfLink link] }
            relatedGo g ropts fuel link.sourceId (d + 1) s1) st3

end GraphQueries

-- ----------------------------------------------------------------------------
-- Cycle detection
-- ----------------------------------------------------------------------------

/-- A cycle record of the single-seed detector: closed id path, edge count
and the link types along the path. -/
structure CycleRecord where
  path : List String
  length : Nat
  linkTypes : List String
deriving DecidableEq, Repr

/-- A cycle record of the subgraph detector (`{path, length}` only). -/
structure GraphCycleRecord where
  path : List String
  length : Nat
deriving DecidableEq, Repr

structure CycleResult where
  taskId : String
  hasCycles : Bool
  cycles : List CycleRecord
deriving DecidableEq, Repr

namespace GraphQueries

/-- `GraphQueries.getLinkTypesInPath(path)`: the type of the first stored
link between each consecutive pair of ids, skipping missing pairs. -/
def getLinkTypesInPath (g : Store) : List String → List String
  | a :: b :: rest =>
    (match (LinkStore.getAll g { sourceId := some a, targetId := some b }).head? with
     | some l => [l.linkType]
     | none => []) ++ getLinkTypesInPath g (b :: rest)
  | _ => []

/-- State persisting across the `detectCycles` DFS: the visited set and the
emitted cycles.  The recursion stack and current path are restored on exit
(paired push/pop) and are therefore call parameters. -/
structure CycleState where
  visited : List String
  cycles : List CycleRecord
deriving DecidableEq, Repr

/-- The DFS of `detectCycles`: on re-entering a node on the recursion
stack, emit the slice of the current path from that node's first occurrence,
closed by re-appending it.  `none` means the fuel ran out. -/
def cycDfs (g : Store) :
    Nat → String → List String → List String → CycleState → Option CycleState
  | 0, _, _, _, _ => none
  | fuel+1, cur, stack, path, st =>
    if cur ∈ stack then
      some (if path.indexOf cur < path.length then
        let cycle := path.drop (path.indexOf cur) ++ [cur]
        { st with cycles := st.cycles ++ [⟨cycle, cycle.length - 1, getLinkTypesInPath g cycle⟩] }
      else st)
    else if cur ∈ st.visited then some st
    else
      let st1 : CycleState := { st with visited := st.visited ++ [cur] }
      let links := LinkStore.getAll g { sourceId := some cur }
      links.foldl (fun o link =>
        o.bind (fun s => cycDfs g fuel link.targetId (cur :: stack) (path ++ [cur]) s))
        (some st1)

/-- Sufficient DFS fuel for `detectCycles`: every node the DFS can reach is
the seed or the target of a stored link, and each productive call visits a
new one. -/
def cycFuel (g : Store) : Nat := g.links.length + 2

def detectCyclesF (fuel : Nat) (g : Store) (taskId : String) : CycleResult :=
  match cycDfs g fuel taskId [] [] ⟨[], []⟩ with
  | some st => ⟨taskId, decide (st.cycles.length > 0), st.cycles⟩
  | none => ⟨taskId, false, []⟩

/-- `GraphQueries.detectCycles(taskId)`. -/
def detectCycles (g : Store) (taskId : String) : CycleResult :=
  detectCyclesF (cycFuel g) g taskId

/-- An entry of the explicit `path` parameter of the subgraph DFS
(`{node, edge}`; the `edge` component is stored but never read back). -/
structure PathEntry where
  node : String
  edge : GraphEdge
deriving DecidableEq, Repr

structure GraphCycleState where
  visited : List String
  cycles : List GraphCycleRecord
deriving DecidableEq, Repr

/-- The adjacency list of `detectCyclesInGraph`: node ids in the given set
map to their outgoing edges (in edge-array order), others to `[]`. -/
def adjacency (nodeIds : List String) (edges : List GraphEdge) (n : String) : List GraphEdge :=
  if nodeIds.contains n then edges.filter (fun e => e.source == n) else []

/-- The DFS of `detectCyclesInGraph` over the given adjacency structure. -/
def gcycDfs (nodeIds : List String) (edges : List GraphEdge) :
    Nat → String → List String → List PathEntry → GraphCycleState → Option GraphCycleState
  | 0, _, _, _, _ => none
  | fuel+1, cur, stack, path, st =>
    if cur ∈ stack then
      some (
        let i := path.findIdx (fun p => p.node == cur)
        if i < path.length then
          let cyclePath := (path.drop i).map (fun p => p.node) ++ [cur]
          { st with cycles := st.cycles ++ [⟨cyclePath, cyclePath.length - 1⟩] }
        else st)
    else if cur ∈ st.visited then some st
    else
      let st1 : GraphCycleState := { st with visited := st.visited ++ [cur] }
      (adjacency nodeIds edges cur).foldl (fun o e =>
        o.bind (fun s => gcycDfs nodeIds edges fuel e.target (cur :: stack) (path ++ [⟨cur, e⟩]) s))
        (some st1)

/-- Sufficient DFS fuel for `detectCyclesInGraph`. -/
def gcycFuel (nodeIds : List String) (edges : List GraphEdge) : Nat :=
  nodeIds.length + edges.length + 1

def detectCyclesInGraphF (fuel : Nat) (nodeIds : List String) (edges : List GraphEdge) :
    List GraphCycleRecord :=
  let res := nodeIds.foldl (fun o n =>
    o.bind (fun (s : GraphCycleState) =>
      if n ∈ s.visited then some s else gcycDfs nodeIds edges fuel n [] [] s))
    (some ⟨[], []⟩)
  match res with
  | some st => st.cycles
  | none => []

/-- `GraphQueries.detectCyclesInGraph(nodeIds, edges)`: DFS from every
unvisited node of the given node set, restricted to the given edges. -/
def detectCyclesInGraph (nodeIds : List String) (edges : List GraphEdge) :
    List GraphCycleRecord :=
  detectCyclesInGraphF (gcycFuel nodeIds edges) nodeIds edges

end GraphQueries

/-- The `{nodes, edges, cycles, nodeCount, edgeCount}` result of
`getRelatedGraph`. -/
structure RelatedGraph where
  nodes : List GraphNode
  edges : List GraphEdge
  cycles : List GraphCycleRecord
  nodeCount : Nat
  edgeCount : Nat
deriving DecidableEq, Repr

namespace GraphQueries

/-- Sufficient fuel for the `getRelatedGraph` traversal started at depth 1
(its recursion re-checks the depth guard at entry, so it can go one level
past `depth`). -/
def relatedFuel (ropts : RelatedOptions) : Nat := ropts.depth.toNat + 2

def getRelatedGraphF (fuel : Nat) (g : Store) (taskId : String) (ropts : RelatedOptions) :
    RelatedGraph :=
  let st := relatedGo g ropts fuel taskId 1 ⟨[], [], []⟩
  let cycles := detectCyclesInGraph (st.nodes.map (fun n => n.id)) st.edges
  ⟨st.nodes, st.edges, cycles, st.nodes.length, st.edges.length⟩

/-- `GraphQueries.getRelatedGraph(taskId, options)`. -/
def getRelatedGraph (g : Store) (taskId : String) (ropts : RelatedOptions) : RelatedGraph :=
  getRelatedGraphF (relatedFuel ropts) g taskId ropts

end GraphQueries

-- ----------------------------------------------------------------------------
-- Blocking / dependency chains
-- ----------------------------------------------------------------------------

/-- A `{task, link, depth}` record of the blocking / dependency chains;
`depth` starts at 0 here (the source passes `depth = 0` at the seed). -/
structure ChainRecord where
  task : Task
  link : Link
  depth : Nat
deriving DecidableEq, Repr

structure BlockingResult where
  taskId : String
  blockedTasks : List ChainRecord
  count : Nat
deriving DecidableEq, Repr

structure DependencyResult where
  taskId : String
  dependencies : List ChainRecord
  count : Nat
deriving DecidableEq, Repr

structure ChainState where
  visited : List String
  records : List ChainRecord
deriving DecidableEq, Repr

namespace GraphQueries

/-- The inner `traverse` of `getBlockingChain`: follow incoming links of
type `waiting` or `blocks` transitively, guarded by the visited set and the
hard cap `depth > 10`. -/
def blockingGo (g : Store) : Nat → String → Nat → ChainState → ChainState
  | 0, _, _, st => st
  | fuel+1, cur, d, st =>
    if cur ∈ st.visited then st
    else if d > 10 then st
    else
      let st1 : ChainState := { st with visited := st.visited ++ [cur] }
      let waitingLinks := (LinkStore.getAll g { targetId := some cur }).filter
        (fun l => l.linkType == "waiting" || l.linkType == "blocks")
      waitingLinks.foldl (fun s link =>
        match TaskStore.getById g link.sourceId with
        | none => s
        | some blockedTask =>
          let s1 : ChainState := { s with records := s.records ++ [⟨blockedTask, link, d⟩] }
          blockingGo g fuel link.sourceId (d + 1) s1) st1

/-- Sufficient fuel for the chains: the cap stops recursion at depth 11. -/
def chainFuel : Nat := 12

def getBlockingChainF (fuel : Nat) (g : Store) (taskId : String) : BlockingResult :=
  let st := blockingGo g fuel taskId 0 ⟨[], []⟩
  ⟨taskId, st.records, st.records.length⟩

/-- `GraphQueries.getBlockingChain(taskId)`. -/
def getBlockingChain (g : Store) (taskId : String) : BlockingResult :=
  getBlockingChainF chainFuel g taskId

/-- The inner `traverse` of `getDependencyChain` (mirror of `blockingGo`
along outgoing `waiting` / `blocks` links). -/
def dependencyGo (g : Store) : Nat → String → Nat → ChainState → ChainState
  | 0, _, _, st => st
  | fuel+1, cur, d, st =>
    if cur ∈ st.visited then st
    else if d > 10 then st
    else
      let st1 : ChainState := { st with visited := st.visited ++ [cur] }
      let waitingLinks := (LinkStore.getAll g { sourceId := some cur }).filter
        (fun l => l.linkType == "waiting" || l.linkType == "blocks")
      waitingLinks.foldl (fun s link =>
        match TaskStore.getById g link.targetId with
        | none => s
        | some dependencyTask =>
          let s1 : ChainState := { s with records := s.records ++ [⟨dependencyTask, link, d⟩] }
          dependencyGo g fuel link.targetId (d + 1) s1) st1

def getDependencyChainF (fuel : Nat) (g : Store) (taskId : String) : DependencyResult :=
  let st := dependencyGo g fuel taskId 0 ⟨[], []⟩
  ⟨taskId, st.records, st.records.length⟩

/-- `GraphQueries.getDependencyChain(taskId)`. -/
def getDependencyChain (g : Store) (taskId : String) : DependencyResult :=
  getDependencyChainF chainFuel g taskId

end GraphQueries

-- ----------------------------------------------------------------------------
-- Neighborhood, importance, orphans, tasks-in-cycles
-- ----------------------------------------------------------------------------

structure Neighborhood where
  taskId : String
  backlinks : List TraversalRecord
  forwardLinks : List TraversalRecord
  totalNeighbors : Nat
deriving DecidableEq, Repr

/-- `getTaskImportance` result. -/
structure Importance where
  taskId : String
  backlinkCount : Nat
  forwardLinkCount : Nat
  blockingCount : Nat
  importanceScore : Rat
  ranking : String
deriving DecidableEq, Repr

/-- JS `x || dflt` on an optional number: `null`/`undefined` and `0` are
falsy. -/
def jsOr (x : Option Rat) (dflt : Rat) : Rat :=
  match x with
  | some s => if s = 0 then dflt else s
  | none => dflt

namespace GraphQueries

def getNeighborhoodF (fuel : Nat) (g : Store) (taskId : String) : Neighborhood :=
  let backlinks := getBacklinksF fuel g taskId { depth := 1 }
  let forwardLinks := getForwardLinksF fuel g taskId { depth := 1 }
  ⟨taskId, backlinks.backlinks, forwardLinks.forwardLinks, backlinks.count + forwardLinks.count⟩

/-- `GraphQueries.getNeighborhood(taskId)`: depth-1 backlinks and forward
links plus the combined count. -/
def getNeighborhood (g : Store) (taskId : String) : Neighborhood :=
  getNeighborhoodF 2 g taskId

/-- `GraphQueries.calculateRanking(score)`. -/
def calculateRanking (score : Rat) : String :=
  if score = 0 then "isolated"
  else if score < 3 then "low"
  else if score < 10 then "medium"
  else if score < 20 then "high"
  else "critical"

/-- `GraphQueries.getTaskImportance(taskId)`: depth-1 backlinks, forward
links and the blocking chain; `backlinkScore` sums `link.strength || 1`
over the backlink records, `blockingScore` is the blocking count times 2,
and the score is their sum. -/
def getTaskImportance (g : Store) (taskId : String) : Importance :=
  let backlinks := getBacklinks g taskId { depth := 1 }
  let forwardLinks := getForwardLinks g taskId { depth := 1 }
  let blockingChain := getBlockingChain g taskId
  let backlinkScore : Rat :=
    backlinks.backlinks.foldl (fun sum r => sum + jsOr r.link.strength 1) 0
  let blockingScore : Rat := (blockingChain.count : Rat) * 2
  let totalScore := backlinkScore + blockingScore
  ⟨taskId, backlinks.count, forwardLinks.count, blockingChain.count,
    totalScore, calculateRanking totalScore⟩

/-- `GraphQueries.getOrphanTasks()`: scan `TaskStore.getAll({pageSize:
10000}).data` and keep the tasks with no incident link and no project. -/
def getOrphanTasks (g : Store) : List Task :=
  let allTasks := TaskStore.getAll g (some 10000)
  allTasks.filter (fun task =>
    (LinkStore.getAll g { entityId := some task.id }).length = 0 && task.projectId == none)

/-- A cycle entry of `getTasksInCycles` (`{...cycle, involvedTasks:
cycle.path}`). -/
structure CycleInfo where
  path : List String
  length : Nat
  linkTypes : List String
  involvedTasks : List String
deriving DecidableEq, Repr

structure TasksInCyclesResult where
  tasks : List String
  cycles : List CycleInfo
  count : Nat
deriving DecidableEq, Repr

/-- JS `Set.add` keeping first-insertion order (for `tasksInCycles`). -/
def addUnique (l : List String) (x : String) : List String :=
  if x ∈ l then l else l ++ [x]

def getTasksInCyclesF (fuel : Nat) (g : Store) : TasksInCyclesResult :=
  let allTasks := TaskStore.getAll g (some 10000)
  let res := allTasks.foldl (fun (acc : List String × List CycleInfo) task =>
    let r := detectCyclesF fuel g task.id
    if r.hasCycles then
      r.cycles.foldl (fun (acc2 : List String × List CycleInfo) cycle =>
        (cycle.path.foldl addUnique acc2.1,
         acc2.2 ++ [⟨cycle.path, cycle.length, cycle.linkTypes, cycle.path⟩])) acc
    else acc) ([], [])
  ⟨res.1, res.2, res.1.length⟩

/-- `GraphQueries.getTasksInCycles()`: run `detectCycles` from every task
of the (paginated) full scan, union the node ids of all discovered cycles
and collect the cycle records. -/
def getTasksInCycles (g : Store) : TasksInCyclesResult :=
  getTasksInCyclesF (cycFuel g) g

end GraphQueries

-- ============================================================================
-- CONCRETE STORES USED BY THE SCENARIO THEOREMS
-- ============================================================================

/-- A task with only the engine-relevant fields populated. -/
def mkTask (id : String) (proj : Option String) : Task :=
  ⟨id, "content", "active", "-", proj, 0⟩

/-- A link with neither label nor strength. -/
def mkLink (id src tgt ty : String) : Link :=
  ⟨id, src, tgt, ty, none, none⟩

/-- A task that belongs to a project (hence never an orphan). -/
def fillerTask : Task := mkTask "F" (some "P")

/-- The orphan task D: no project, and `storePaginated` has no links. -/
def orphanD : Task := mkTask "D" none

/-- 201 tasks, all with the same `createdAt`, the orphan stored last: the
stable descending sort keeps storage order and `pageSize` is clamped to
200, so the orphan never reaches the scan of `getOrphanTasks`. -/
def storePaginated : Store := ⟨List.replicate 200 fillerTask ++ [orphanD], []⟩

/-- Two tasks joined by a single link A→B. -/
def storeAB : Store :=
  ⟨[mkTask "A" none, mkTask "B" none], [mkLink "L" "A" "B" "related"]⟩

/-- Backlink graph for the depth-monotonicity counterexample: links A→S,
B→S, B→A, C→B (stored in this order). -/
def storeDiamond : Store :=
  ⟨[mkTask "S" none, mkTask "A" none, mkTask "B" none, mkTask "C" none],
   [mkLink "L1" "A" "S" "related", mkLink "L2" "B" "S" "related",
    mkLink "L3" "B" "A" "related", mkLink "L4" "C" "B" "related"]⟩

/-- One backlink A→S. -/
def storeOneBacklink : Store :=
  ⟨[mkTask "S" none, mkTask "A" none], [mkLink "L" "A" "S" "related"]⟩

/-- Blocking scenario: B waits on A, C waits on B. -/
def storeBlocking : Store :=
  ⟨[mkTask "A" none, mkTask "B" none, mkTask "C" none],
   [mkLink "L1" "B" "A" "waiting", mkLink "L2" "C" "B" "waiting"]⟩

/-- The 3-cycle A→B→C→A, all edges `waiting`. -/
def storeTriangle : Store :=
  ⟨[mkTask "A" none, mkTask "B" none, mkTask "C" none],
   [mkLink "L1" "A" "B" "waiting", mkLink "L2" "B" "C" "waiting",
    mkLink "L3" "C" "A" "waiting"]⟩

/-- A→B→C→B: the cycle B→C→B is reachable from A but does not contain A. -/
def storeTail : Store :=
  ⟨[mkTask "A" none, mkTask "B" none, mkTask "C" none],
   [mkLink "L1" "A" "B" "waiting", mkLink "L2" "B" "C" "waiting",
    mkLink "L3" "C" "B" "waiting"]⟩

/-- A single backlink U→T whose stored strength is 0. -/
def linkStrengthZero : Link := ⟨"L", "U", "T", "references", none, some 0⟩

def storeStrengthZero : Store :=
  ⟨[mkTask "T" none, mkTask "U" none], [linkStrengthZero]⟩

/-- Orphan scenario within one page: D has no links and no project, E
belongs to a project. -/
def taskE : Task := mkTask "E" (some "P")

def storeDE : Store := ⟨[orphanD, taskE], []⟩

-- ============================================================================
-- SPEC-SIDE SCORE FORMULAS (written from the specification text)
-- ============================================================================

/-- The backlink score exactly as the specification words it: the link's
strength whenever the field is present — including a stored strength of
0 — and 1.0 when it is absent. -/
def backlinkScoreClaimed (records : List TraversalRecord) : Rat :=
  (records.map (fun r => match r.link.strength with
    | some s => s
    | none => 1)).sum

/-- The importance score the specification claims:
`backlinkScoreClaimed + blockingCount × 2`. -/
def importanceScoreClaimed (g : Store) (taskId : String) : Rat :=
  backlinkScoreClaimed ((GraphQueries.getBacklinks g taskId { depth := 1 }).backlinks) +
    ((GraphQueries.getBlockingChain g taskId).count : Rat) * 2

/-- The amended backlink score: the link's strength counts only when it is
present and nonzero; an absent or zero strength contributes 1.0 (JS
`link.strength || 1`). -/
def backlinkScoreAmended (records : List TraversalRecord) : Rat :=
  (records.map (fun r => match r.link.strength with
    | some s => if s = 0 then 1 else s
    | none => 1)).sum

/-- The number of universe nodes not yet visited: the termination measure
of the DFS cycle detectors (each productive call visits a new node of the
finite universe). -/
def unvisited (univ visited : List String) : Nat :=
  (univ.filter (fun x => decide (x ∉ visited))).length

-- ============================================================================
-- GENERIC FOLD LEMMAS
-- ============================================================================

theorem foldl_inv {α σ : Type _} (P : σ → Prop) (f : σ → α → σ) :
    ∀ (l : List α) (s : σ), P s → (∀ s a, a ∈ l → P s → P (f s a)) →
      P (l.foldl f s)
  | [], _, h, _ => h
  | a :: l, s, h, hstep =>
    foldl_inv P f l (f s a) (hstep s a (by simp) h)
      (fun s' a' ha' h' => hstep s' a' (by simp [ha']) h')

theorem foldl_ext {α σ : Type _} (f g : σ → α → σ) :
    ∀ (l : List α) (s : σ), (∀ s a, a ∈ l → f s a = g s a) →
      l.foldl f s = l.foldl g s
  | [], _, _ => rfl
  | a :: l, s, h => by
    rw [List.foldl_cons, List.foldl_cons, h s a (by simp)]
    exact foldl_ext f g l (g s a) (fun s' a' ha' => h s' a' (by simp [ha']))

theorem foldl_bind_pres {α σ : Type _} (P : σ → Prop) (f : α → σ → Option σ) :
    ∀ (l : List α) (o : Option σ),
      (∀ s, o = some s → P s) →
      (∀ a, a ∈ l → ∀ s s₂, P s → f a s = some s₂ → P s₂) →
      ∀ s₂, l.foldl (fun o a => o.bind (f a)) o = some s₂ → P s₂
  | [], o, ho, _, s₂, hfold => ho s₂ hfold
  | a :: l, o, ho, hstep, s₂, hfold =>
    foldl_bind_pres P f l (o.bind (f a))
      (fun s hs => by
        match o, hs with
        | some s0, hs =>
          exact hstep a (by simp) s0 s (ho s0 rfl) hs)
      (fun a' ha' => hstep a' (by simp [ha']))
      s₂ hfold

theorem foldl_bind_congr {α σ : Type _} (Q : σ → Prop) (f g : α → σ → Option σ) :
    ∀ (l : List α) (o : Option σ),
      (∀ s, o = some s → Q s) →
      (∀ a, a ∈ l → ∀ s, Q s → f a s = g a s) →
      (∀ a, a ∈ l → ∀ s s₂, Q s → f a s = some s₂ → Q s₂) →
      l.foldl (fun o a => o.bind (f a)) o = l.foldl (fun o a => o.bind (g a)) o
  | [], _, _, _, _ => rfl
  | a :: l, o, ho, hagree, hpres => by
    rw [List.foldl_cons, List.foldl_cons]
    have hbind : o.bind (f a) = o.bind (g a) := by
      match o with
      | none => rfl
      | some s => exact hagree a (by simp) s (ho s rfl)
    rw [hbind]
    exact foldl_bind_congr Q f g l (o.bind (g a))
      (fun s hs => by
        match o, hs with
        | some s0, hs =>
          have hfa : f a s0 = some s := by rw [hagree a (by simp) s0 (ho s0 rfl)]; exact hs
          exact hpres a (by simp) s0 s (ho s0 rfl) hfa)
      (fun a' ha' => hagree a' (by simp [ha']))
      (fun a' ha' => hpres a' (by simp [ha']))

-- ============================================================================
-- CLAIM THEOREMS (scenario / counterexample evaluations)
-- ============================================================================

set_option maxRecDepth 40000 in
/-- C1: the claim is right and the code is wrong.  With 201 stored tasks,
the orphan task D satisfies both orphan conditions (no incident link, no
`projectId`) but `getOrphanTasks` misses it: the scan reads
`TaskStore.getAll({pageSize: 10000})`, whose page size is clamped to 200,
so D is cut off by pagination.  Within a single page the scenario behaves
as specified (D returned, project-bearing E excluded). -/
theorem c1_orphan_missed_by_pagination :
    orphanD ∈ storePaginated.tasks ∧
    LinkStore.getAll storePaginated { entityId := some orphanD.id } = [] ∧
    orphanD.projectId = none ∧
    orphanD ∉ GraphQueries.getOrphanTasks storePaginated ∧
    GraphQueries.getOrphanTasks storeDE = [orphanD] := by
  decide

/-- C2: the claim is right and the code is wrong.  The outgoing branch of
`getRelatedGraph` pushes edges without the duplicate check, so the single
link A→B — reached first via incoming traversal at the seed B, then again
via outgoing traversal from A — is recorded twice: `edgeCount = 2` although
only one distinct link id was collected. -/
theorem c2_edge_duplicated :
    (GraphQueries.getRelatedGraph storeAB "B" {}).edgeCount = 2 ∧
    (GraphQueries.getRelatedGraph storeAB "B" {}).edges.map (fun e => e.id) =
      ["L", "L"] := by
  decide

/-- C4 counterexample: on `storeDiamond`, the record (link C→B, task C,
depth 2) is returned by the depth-2 traversal, but the depth-3 traversal
reaches B at depth 3 first (through S→A→B), so C is recorded at depth 3 and
the depth-3 result restricted to depth ≤ 2 is not a superset of the depth-2
result. -/
theorem c4_superset_counterexample :
    (⟨mkLink "L4" "C" "B" "related", mkTask "C" none, 2⟩ : TraversalRecord) ∈
      (GraphQueries.getBacklinks storeDiamond "S"
        { depth := 2, includeIndirect := true }).backlinks ∧
    (⟨mkLink "L4" "C" "B" "related", mkTask "C" none, 2⟩ : TraversalRecord) ∉
      ((GraphQueries.getBacklinks storeDiamond "S"
        { depth := 3, includeIndirect := true }).backlinks.filter
          (fun r => decide (r.depth ≤ 2))) := by
  decide

/-- C5 counterexample: with one backlink A→S, `getBacklinks(S, {depth: 0})`
returns no records while `getBacklinks(S, {depth: 1})` returns one, so a
non-positive depth is not treated as the documented default of 1. -/
theorem c5_depth_zero_counterexample :
    GraphQueries.getBacklinks storeOneBacklink "S" { depth := 0 } ≠
      GraphQueries.getBacklinks storeOneBacklink "S" { depth := 1 } := by
  decide

/-- C8: on the 3-cycle A→B→C→A (all `waiting`), `detectCycles(A)` reports
`hasCycles` with exactly one cycle whose closed path is [A, B, C, A]
(containing A, B and C) and whose length is 3. -/
theorem c8_three_cycle :
    (GraphQueries.detectCycles storeTriangle "A").hasCycles = true ∧
    (GraphQueries.detectCycles storeTriangle "A").cycles.map CycleRecord.path =
      [["A", "B", "C", "A"]] ∧
    (GraphQueries.detectCycles storeTriangle "A").cycles.map CycleRecord.length = [3] ∧
    "A" ∈ (["A", "B", "C", "A"] : List String) ∧
    "B" ∈ (["A", "B", "C", "A"] : List String) ∧
    "C" ∈ (["A", "B", "C", "A"] : List String) := by
  decide

/-- C10: on A→B, B→C, C→B, `detectCycles(A)` reports a cycle whose path
[B, C, B] does not contain the seed A, so `hasCycles: true` does not imply
the seed lies on a cycle — the detector reports every cycle in the subgraph
reachable from the seed along outgoing edges. -/
theorem c10_cycle_not_through_seed :
    (GraphQueries.detectCycles storeTail "A").hasCycles = true ∧
    (GraphQueries.detectCycles storeTail "A").cycles.map CycleRecord.path =
      [["B", "C", "B"]] ∧
    "A" ∉ (["B", "C", "B"] : List String) := by
  decide

-- ============================================================================
-- DEPTH ≤ 0 BEHAVIOUR (C5)
-- ============================================================================

/-- C5 (amended): a non-positive `depth` does not throw, but the traversal
is cut off before the first hop, so the query returns an empty record list
with `count: 0` — it does not behave like the documented default depth 1. -/
theorem c5_depth_nonpositive_empty (g : Store) (s : String) (lt : Option String)
    (ii : Bool) (d : Int) (hd : d ≤ 0) :
    GraphQueries.getBacklinks g s ⟨lt, d, ii⟩ = ⟨s, [], 0⟩ ∧
    GraphQueries.getForwardLinks g s ⟨lt, d, ii⟩ = ⟨s, [], 0⟩ := by
  have h1 : (1 : Int) > (⟨lt, d, ii⟩ : QueryOptions).depth := by simpa using by omega
  constructor
  · simp only [GraphQueries.getBacklinks, GraphQueries.getBacklinksF,
      GraphQueries.backlinksFuel, GraphQueries.backlinksGo, if_pos h1, List.length_nil]
  · simp only [GraphQueries.getForwardLinks, GraphQueries.getForwardLinksF,
      GraphQueries.backlinksFuel, GraphQueries.forwardGo, if_pos h1, List.length_nil]

theorem c5_depth_nonpositive_empty_witness :
    GraphQueries.getBacklinks storeOneBacklink "S" ⟨none, 0, false⟩ = ⟨"S", [], 0⟩ ∧
    GraphQueries.getForwardLinks storeOneBacklink "S" ⟨none, 0, false⟩ = ⟨"S", [], 0⟩ :=
  c5_depth_nonpositive_empty storeOneBacklink "S" none false 0 (by decide)

-- ============================================================================
-- DEPTH BOUND OF getBacklinks (C4)
-- ============================================================================

theorem backlinksGo_depth_le (g : Store) (opts : QueryOptions) :
    ∀ (fuel : Nat) (cur : String) (d : Int) (st : WalkState),
      1 ≤ d →
      (∀ r ∈ st.results, 1 ≤ r.depth ∧ r.depth ≤ opts.depth) →
      ∀ r ∈ (GraphQueries.backlinksGo g opts fuel cur d st).results,
        1 ≤ r.depth ∧ r.depth ≤ opts.depth := by
  intro fuel
  induction fuel with
  | zero => intro cur d st _ hst; simpa [GraphQueries.backlinksGo] using hst
  | succ fuel ih =>
    intro cur d st hd hst
    rw [GraphQueries.backlinksGo]
    by_cases hgt : d > opts.depth
    · simpa [hgt] using hst
    · by_cases hv : cur ∈ st.visited
      · simpa [hgt, hv] using hst
      · simp only [if_neg hgt, if_neg hv]
        refine foldl_inv
          (fun (s : WalkState) => ∀ r ∈ s.results, 1 ≤ r.depth ∧ r.depth ≤ opts.depth)
          _ _ _ hst ?_
        intro s link _ hs
        by_cases hrej : typeRejects opts.linkType link
        · simpa [hrej] using hs
        · simp only [if_neg hrej]
          cases hfind : TaskStore.getById g link.sourceId with
          | none => exact hs
          | some sourceTask =>
            have hs1 : ∀ r ∈ s.results ++ [(⟨link, sourceTask, d⟩ : TraversalRecord)],
                1 ≤ r.depth ∧ r.depth ≤ opts.depth := by
              intro r hr
              rcases List.mem_append.mp hr with h | h
              · exact hs r h
              · simp only [List.mem_singleton] at h
                subst h
                exact ⟨hd, by show d ≤ opts.depth; omega⟩
            by_cases hrec : opts.includeIndirect = true ∧ d < opts.depth
            · simpa [hrec] using ih link.sourceId (d + 1) _ (by omega) hs1
            · simpa [hrec] using hs1

/-- C4 (amended): every record returned by
`getBacklinks(id, {depth: k, includeIndirect: true})` has a depth between 1
and k.  The superset half of the claim is false (see the counterexample):
a node first reached through a deeper path is marked visited there and is
not re-expanded at the shallower depth, so deepening the bound can change
the recorded depths. -/
theorem c4_depth_bounded (g : Store) (seed : String) (lt : Option String) (k : Int)
    (r : TraversalRecord)
    (hr : r ∈ (GraphQueries.getBacklinks g seed ⟨lt, k, true⟩).backlinks) :
    1 ≤ r.depth ∧ r.depth ≤ k :=
  backlinksGo_depth_le g ⟨lt, k, true⟩ (GraphQueries.backlinksFuel ⟨lt, k, true⟩)
    seed 1 ⟨[], []⟩ (by omega) (by simp) r hr

theorem c4_depth_bounded_witness :
    1 ≤ (⟨mkLink "L1" "A" "S" "related", mkTask "A" none, 1⟩ : TraversalRecord).depth ∧
    (⟨mkLink "L1" "A" "S" "related", mkTask "A" none, 1⟩ : TraversalRecord).depth ≤ 2 :=
  c4_depth_bounded storeDiamond "S" none 2 _ (by decide)

-- ============================================================================
-- IMPORTANCE SCORE (C3)
-- ============================================================================

theorem foldl_jsOr_eq_amended :
    ∀ (l : List TraversalRecord) (init : Rat),
      l.foldl (fun sum r => sum + jsOr r.link.strength 1) init =
        init + backlinkScoreAmended l
  | [], init => by simp [backlinkScoreAmended]
  | r :: l, init => by
    rw [List.foldl_cons, foldl_jsOr_eq_amended l]
    simp only [backlinkScoreAmended, List.map_cons, List.sum_cons, jsOr]
    rw [add_assoc]

/-- C3 (amended): `importanceScore` is the sum of the amended backlink
score — the link's strength when present and nonzero, else 1.0, because the
source computes `link.strength || 1` and 0 is falsy — plus twice the
blocking-chain count. -/
theorem c3_importance_amended (g : Store) (taskId : String) :
    (GraphQueries.getTaskImportance g taskId).importanceScore =
      backlinkScoreAmended ((GraphQueries.getBacklinks g taskId { depth := 1 }).backlinks) +
        ((GraphQueries.getBlockingChain g taskId).count : Rat) * 2 := by
  simp only [GraphQueries.getTaskImportance, foldl_jsOr_eq_amended]
  ring

/-- C3 counterexample: with a single backlink whose stored strength is 0,
the code scores it as 1 (`0` is falsy in `link.strength || 1`) while the
claimed formula — strength whenever present, including 0 — yields 0. -/
theorem c3_strength_zero_counterexample :
    (GraphQueries.getTaskImportance storeStrengthZero "T").importanceScore ≠
      importanceScoreClaimed storeStrengthZero "T" := by
  have hb : (GraphQueries.getBacklinks storeStrengthZero "T" { depth := 1 }).backlinks =
      [⟨linkStrengthZero, mkTask "U" none, 1⟩] := by decide
  have hc : (GraphQueries.getBlockingChain storeStrengthZero "T").count = 0 := by decide
  have hL : (GraphQueries.getTaskImportance storeStrengthZero "T").importanceScore = 1 := by
    simp only [GraphQueries.getTaskImportance, hb, hc, List.foldl_cons, List.foldl_nil,
      linkStrengthZero, jsOr]
    norm_num
  have hR : importanceScoreClaimed storeStrengthZero "T" = 0 := by
    simp only [importanceScoreClaimed, backlinkScoreClaimed, hb, hc, List.map_cons,
      List.map_nil, linkStrengthZero, List.sum_cons, List.sum_nil]
    norm_num
  rw [hL, hR]
  norm_num

-- ============================================================================
-- BLOCKING CHAIN (C7)
-- ============================================================================

theorem mem_getAll_targetId {g : Store} {t : String} {l : Link}
    (h : l ∈ LinkStore.getAll g { targetId := some t }) : l ∈ g.links ∧ l.targetId = t := by
  simp only [LinkStore.getAll] at h
  rcases List.mem_filter.mp h with ⟨hm, hb⟩
  exact ⟨hm, by simpa using hb⟩

theorem mem_getAll_sourceId {g : Store} {c : String} {l : Link}
    (h : l ∈ LinkStore.getAll g { sourceId := some c }) : l ∈ g.links ∧ l.sourceId = c := by
  simp only [LinkStore.getAll] at h
  rcases List.mem_filter.mp h with ⟨hm, hb⟩
  exact ⟨hm, by simpa using hb⟩

theorem blockingGo_visited_mono (g : Store) :
    ∀ (fuel : Nat) (cur : String) (d : Nat) (st : ChainState) (x : String),
      x ∈ st.visited → x ∈ (GraphQueries.blockingGo g fuel cur d st).visited := by
  intro fuel
  induction fuel with
  | zero => intro cur d st x hx; simpa [GraphQueries.blockingGo] using hx
  | succ fuel ih =>
    intro cur d st x hx
    rw [GraphQueries.blockingGo]
    by_cases hv : cur ∈ st.visited
    · simpa [hv] using hx
    · by_cases hcap : d > 10
      · simpa [hv, hcap] using hx
      · simp only [if_neg hv, if_neg hcap]
        refine foldl_inv (fun (s : ChainState) => x ∈ s.visited) _ _ _ ?_ ?_
        · exact List.mem_append.mpr (Or.inl hx)
        · intro s link _ hs
          cases hfind : TaskStore.getById g link.sourceId with
          | none => simpa [hfind] using hs
          | some blockedTask =>
            simp only [hfind]
            exact ih link.sourceId (d + 1) _ x hs

theorem blockingGo_records_inv (g : Store) (seed : String) :
    ∀ (fuel : Nat) (cur : String) (d : Nat) (st : ChainState),
      1 ≤ d → seed ∈ st.visited →
      (∀ r ∈ st.records,
        (r.link.linkType = "waiting" ∨ r.link.linkType = "blocks") ∧
        (r.depth = 0 ↔ r.link.targetId = seed)) →
      ∀ r ∈ (GraphQueries.blockingGo g fuel cur d st).records,
        (r.link.linkType = "waiting" ∨ r.link.linkType = "blocks") ∧
        (r.depth = 0 ↔ r.link.targetId = seed) := by
  intro fuel
  induction fuel with
  | zero => intro cur d st _ _ hst; simpa [GraphQueries.blockingGo] using hst
  | succ fuel ih =>
    intro cur d st hd hseed hst
    rw [GraphQueries.blockingGo]
    by_cases hv : cur ∈ st.visited
    · simpa [hv] using hst
    · by_cases hcap : d > 10
      · simpa [hv, hcap] using hst
      · simp only [if_neg hv, if_neg hcap]
        have hcur : cur ≠ seed := fun he => hv (he ▸ hseed)
        refine (foldl_inv (fun (s : ChainState) =>
          (∀ r ∈ s.records,
            (r.link.linkType = "waiting" ∨ r.link.linkType = "blocks") ∧
            (r.depth = 0 ↔ r.link.targetId = seed)) ∧ seed ∈ s.visited)
          _ _ _ ?_ ?_).1
        · exact ⟨hst, List.mem_append.mpr (Or.inl hseed)⟩
        intro s link hlink hs
        have hty : link.linkType = "waiting" ∨ link.linkType = "blocks" := by
          rcases List.mem_filter.mp hlink with ⟨_, hb⟩
          simpa using hb
        have htgt : link.targetId = cur :=
          (mem_getAll_targetId (List.mem_filter.mp hlink).1).2
        cases hfind : TaskStore.getById g link.sourceId with
        | none => simpa [hfind] using hs
        | some blockedTask =>
          simp only [hfind]
          have hs1 : ∀ r ∈ s.records ++ [(⟨blockedTask, link, d⟩ : ChainRecord)],
              (r.link.linkType = "waiting" ∨ r.link.linkType = "blocks") ∧
              (r.depth = 0 ↔ r.link.targetId = seed) := by
            intro r hr
            rcases List.mem_append.mp hr with h | h
            · exact hs.1 r h
            · simp only [List.mem_singleton] at h
              subst h
              refine ⟨hty, ?_⟩
              show d = 0 ↔ link.targetId = seed
              constructor
              · intro h0; omega
              · intro hts; exact absurd (htgt ▸ hts) hcur
          constructor
          · exact ih link.sourceId (d + 1) _ (by omega) hs.2 hs1
          · exact blockingGo_visited_mono g fuel link.sourceId (d + 1) _ seed hs.2

/-- C7: the blocking chain uses 0-indexed depths and only incoming
`waiting`/`blocks` edges.  On the scenario graph (B waits on A, C waits on
B), `getBlockingChain(A)` returns exactly B at depth 0 and C at depth 1;
in general every returned record has link type `waiting` or `blocks`, and
its depth is 0 exactly when its link points directly at the seed (the
first hop). -/
theorem c7_blocking_chain :
    (GraphQueries.getBlockingChain storeBlocking "A" =
      ⟨"A", [⟨mkTask "B" none, mkLink "L1" "B" "A" "waiting", 0⟩,
             ⟨mkTask "C" none, mkLink "L2" "C" "B" "waiting", 1⟩], 2⟩) ∧
    ∀ (g : Store) (seed : String),
      ∀ r ∈ (GraphQueries.getBlockingChain g seed).blockedTasks,
        (r.link.linkType = "waiting" ∨ r.link.linkType = "blocks") ∧
        (r.depth = 0 ↔ r.link.targetId = seed) := by
  constructor
  · decide
  · intro g seed r hr
    have hr2 : r ∈ (GraphQueries.blockingGo g (11 + 1) seed 0 ⟨[], []⟩).records := hr
    rw [GraphQueries.blockingGo] at hr2
    by_cases hv : seed ∈ ([] : List String)
    · simp at hv
    · simp only [if_neg hv, show ¬((0 : Nat) > 10) from by omega, if_neg, if_false] at hr2
      revert hr2
      refine fun hr2 => (foldl_inv (fun (s : ChainState) =>
        (∀ r' ∈ s.records,
          (r'.link.linkType = "waiting" ∨ r'.link.linkType = "blocks") ∧
          (r'.depth = 0 ↔ r'.link.targetId = seed)) ∧ seed ∈ s.visited)
        _ _ _ ?_ ?_).1 r hr2
      · exact ⟨by simp, by simp⟩
      intro s link hlink hs
      have hty : link.linkType = "waiting" ∨ link.linkType = "blocks" := by
        rcases List.mem_filter.mp hlink with ⟨_, hb⟩
        simpa using hb
      have htgt : link.targetId = seed :=
        (mem_getAll_targetId (List.mem_filter.mp hlink).1).2
      cases hfind : TaskStore.getById g link.sourceId with
      | none => simpa [hfind] using hs
      | some blockedTask =>
        simp only [hfind]
        have hs1 : ∀ r' ∈ s.records ++ [(⟨blockedTask, link, 0⟩ : ChainRecord)],
            (r'.link.linkType = "waiting" ∨ r'.link.linkType = "blocks") ∧
            (r'.depth = 0 ↔ r'.link.targetId = seed) := by
          intro r' hr'
          rcases List.mem_append.mp hr' with h | h
          · exact hs.1 r' h
          · simp only [List.mem_singleton] at h
            subst h
            exact ⟨hty, by simp [htgt]⟩
        constructor
        · exact blockingGo_records_inv g seed 11 link.sourceId 1 _ (by omega) hs.2 hs1
        · exact blockingGo_visited_mono g 11 link.sourceId 1 _ seed hs.2

theorem c7_blocking_chain_witness :
    ((⟨mkTask "B" none, mkLink "L1" "B" "A" "waiting", 0⟩ : ChainRecord).link.linkType =
        "waiting" ∨
      (⟨mkTask "B" none, mkLink "L1" "B" "A" "waiting", 0⟩ : ChainRecord).link.linkType =
        "blocks") ∧
    ((⟨mkTask "B" none, mkLink "L1" "B" "A" "waiting", 0⟩ : ChainRecord).depth = 0 ↔
      (⟨mkTask "B" none, mkLink "L1" "B" "A" "waiting", 0⟩ : ChainRecord).link.targetId =
        "A") :=
  c7_blocking_chain.2 storeBlocking "A" _ (by decide)

-- ============================================================================
-- CYCLE CLOSURE (C6)
-- ============================================================================

theorem closed_cycle_of_indexOf {path : List String} {cur : String}
    (hidx : path.indexOf cur < path.length) :
    (path.drop (path.indexOf cur) ++ [cur]).head? =
        (path.drop (path.indexOf cur) ++ [cur]).getLast? ∧
    1 ≤ (path.drop (path.indexOf cur) ++ [cur]).length := by
  have hget : path.get ⟨path.indexOf cur, hidx⟩ = cur := List.indexOf_get hidx
  have hdh : (path.drop (path.indexOf cur)).head? = some cur := by
    rw [List.head?_drop]
    rw [List.getElem?_eq_getElem hidx]
    exact congrArg some hget
  cases hd : path.drop (path.indexOf cur) with
  | nil => rw [hd] at hdh; simp at hdh
  | cons a t =>
    rw [hd] at hdh
    simp only [List.head?_cons, Option.some.injEq] at hdh
    subst hdh
    refine ⟨?_, by simp⟩
    rw [List.getLast?_concat]
    simp

theorem closed_cycle_of_findIdx {path : List GraphQueries.PathEntry} {cur : String}
    (hidx : path.findIdx (fun p => p.node == cur) < path.length) :
    ((path.drop (path.findIdx (fun p => p.node == cur))).map (fun p => p.node) ++
        [cur]).head? =
      ((path.drop (path.findIdx (fun p => p.node == cur))).map (fun p => p.node) ++
        [cur]).getLast? ∧
    1 ≤ ((path.drop (path.findIdx (fun p => p.node == cur))).map (fun p => p.node) ++
        [cur]).length := by
  have hget0 := @List.findIdx_getElem _ (fun p => p.node == cur) path hidx
  have hget : (path.get ⟨path.findIdx (fun p => p.node == cur), hidx⟩).node = cur := by
    simpa using hget0
  have hdh : (path.drop (path.findIdx (fun p => p.node == cur))).head? =
      some (path.get ⟨path.findIdx (fun p => p.node == cur), hidx⟩) := by
    rw [List.head?_drop]
    rw [List.getElem?_eq_getElem hidx]
    rfl
  cases hd : path.drop (path.findIdx (fun p => p.node == cur)) with
  | nil => rw [hd] at hdh; simp at hdh
  | cons a t =>
    rw [hd] at hdh
    simp only [List.head?_cons, Option.some.injEq] at hdh
    refine ⟨?_, by simp⟩
    rw [List.getLast?_concat]
    have hget2 : path[List.findIdx (fun p => p.node == cur) path].node = cur := by
      simpa using hget0
    simp [hdh, List.get_eq_getElem, hget2]

theorem cycDfs_cycles_closed (g : Store) :
    ∀ (fuel : Nat) (cur : String) (stack path : List String)
      (st st₂ : GraphQueries.CycleState),
      (∀ c ∈ st.cycles, c.path.head? = c.path.getLast? ∧ c.path.length = c.length + 1) →
      GraphQueries.cycDfs g fuel cur stack path st = some st₂ →
      ∀ c ∈ st₂.cycles, c.path.head? = c.path.getLast? ∧ c.path.length = c.length + 1 := by
  intro fuel
  induction fuel with
  | zero => intro cur stack path st st₂ hst h; simp [GraphQueries.cycDfs] at h
  | succ fuel ih =>
    intro cur stack path st st₂ hst h
    rw [GraphQueries.cycDfs] at h
    by_cases hstk : cur ∈ stack
    · rw [if_pos hstk] at h
      have h2 := Option.some.inj h
      by_cases hidx : path.indexOf cur < path.length
      · rw [if_pos hidx] at h2
        subst h2
        intro c hc
        rcases List.mem_append.mp hc with hcold | hnew
        · exact hst c hcold
        · simp only [List.mem_singleton] at hnew
          subst hnew
          have hcl := closed_cycle_of_indexOf hidx
          refine ⟨hcl.1, ?_⟩
          show (path.drop (path.indexOf cur) ++ [cur]).length =
            ((path.drop (path.indexOf cur) ++ [cur]).length - 1) + 1
          have h1 := hcl.2
          omega
      · rw [if_neg hidx] at h2
        subst h2
        exact hst
    · by_cases hv : cur ∈ st.visited
      · simp only [if_neg hstk, if_pos hv] at h
        have h2 := Option.some.inj h
        subst h2
        exact hst
      · simp only [if_neg hstk, if_neg hv] at h
        exact foldl_bind_pres
          (fun (s : GraphQueries.CycleState) => ∀ c ∈ s.cycles,
            c.path.head? = c.path.getLast? ∧ c.path.length = c.length + 1)
          _ _ _
          (fun s hs => by
            have h2 := Option.some.inj hs
            subst h2
            exact hst)
          (fun link _ s s₂ hP hstep =>
            ih link.targetId (cur :: stack) (path ++ [cur]) s s₂ hP hstep)
          st₂ h

theorem gcycDfs_cycles_closed (nodeIds : List String) (edges : List GraphEdge) :
    ∀ (fuel : Nat) (cur : String) (stack : List String)
      (path : List GraphQueries.PathEntry) (st st₂ : GraphQueries.GraphCycleState),
      (∀ c ∈ st.cycles, c.path.head? = c.path.getLast? ∧ c.path.length = c.length + 1) →
      GraphQueries.gcycDfs nodeIds edges fuel cur stack path st = some st₂ →
      ∀ c ∈ st₂.cycles, c.path.head? = c.path.getLast? ∧ c.path.length = c.length + 1 := by
  intro fuel
  induction fuel with
  | zero => intro cur stack path st st₂ hst h; simp [GraphQueries.gcycDfs] at h
  | succ fuel ih =>
    intro cur stack path st st₂ hst h
    rw [GraphQueries.gcycDfs] at h
    by_cases hstk : cur ∈ stack
    · rw [if_pos hstk] at h
      have h2 := Option.some.inj h
      by_cases hidx : path.findIdx (fun p => p.node == cur) < path.length
      · simp only [if_pos hidx] at h2
        subst h2
        intro c hc
        rcases List.mem_append.mp hc with hcold | hnew
        · exact hst c hcold
        · simp only [List.mem_singleton] at hnew
          subst hnew
          have hcl := closed_cycle_of_findIdx hidx
          refine ⟨hcl.1, ?_⟩
          show ((path.drop (path.findIdx (fun p => p.node == cur))).map
              (fun p => p.node) ++ [cur]).length =
            (((path.drop (path.findIdx (fun p => p.node == cur))).map
              (fun p => p.node) ++ [cur]).length - 1) + 1
          have h1 := hcl.2
          omega
      · simp only [if_neg hidx] at h2
        subst h2
        exact hst
    · by_cases hv : cur ∈ st.visited
      · simp only [if_neg hstk, if_pos hv] at h
        have h2 := Option.some.inj h
        subst h2
        exact hst
      · simp only [if_neg hstk, if_neg hv] at h
        exact foldl_bind_pres
          (fun (s : GraphQueries.GraphCycleState) => ∀ c ∈ s.cycles,
            c.path.head? = c.path.getLast? ∧ c.path.length = c.length + 1)
          _ _ _
          (fun s hs => by
            have h2 := Option.some.inj hs
            subst h2
            exact hst)
          (fun e _ s s₂ hP hstep =>
            ih e.target (cur :: stack) (path ++ [⟨cur, e⟩]) s s₂ hP hstep)
          st₂ h

/-- C6: every cycle record produced by `detectCycles` or
`detectCyclesInGraph`, on every input, is a closed loop: its path starts
and ends with the same id and its `length` is `path.length - 1` (stated as
`path.length = length + 1`, which also forces the path non-empty). -/
theorem c6_cycle_closure :
    (∀ (g : Store) (seed : String),
      ∀ c ∈ (GraphQueries.detectCycles g seed).cycles,
        c.path.head? = c.path.getLast? ∧ c.path.length = c.length + 1) ∧
    (∀ (nodeIds : List String) (edges : List GraphEdge),
      ∀ c ∈ GraphQueries.detectCyclesInGraph nodeIds edges,
        c.path.head? = c.path.getLast? ∧ c.path.length = c.length + 1) := by
  constructor
  · intro g seed c hc
    unfold GraphQueries.detectCycles GraphQueries.detectCyclesF at hc
    cases hd : GraphQueries.cycDfs g (GraphQueries.cycFuel g) seed [] [] ⟨[], []⟩ with
    | none => rw [hd] at hc; simp at hc
    | some st =>
      rw [hd] at hc
      exact cycDfs_cycles_closed g _ seed [] [] _ st (by simp) hd c hc
  · intro nodeIds edges c hc
    unfold GraphQueries.detectCyclesInGraph GraphQueries.detectCyclesInGraphF at hc
    cases hres : nodeIds.foldl (fun o n =>
        o.bind (fun (s : GraphQueries.GraphCycleState) =>
          if n ∈ s.visited then some s
          else GraphQueries.gcycDfs nodeIds edges (GraphQueries.gcycFuel nodeIds edges)
            n [] [] s))
        (some ⟨[], []⟩) with
    | none => rw [hres] at hc; simp at hc
    | some st =>
      rw [hres] at hc
      refine foldl_bind_pres
        (fun (s : GraphQueries.GraphCycleState) => ∀ c ∈ s.cycles,
          c.path.head? = c.path.getLast? ∧ c.path.length = c.length + 1)
        _ _ _
        (fun s hs => by
          have h2 := Option.some.inj hs
          subst h2
          simp)
        ?_ st hres c hc
      intro n _ s s₂ hP hstep
      by_cases hvs : n ∈ s.visited
      · rw [if_pos hvs] at hstep
        have h2 := Option.some.inj hstep
        subst h2
        exact hP
      · rw [if_neg hvs] at hstep
        exact gcycDfs_cycles_closed nodeIds edges _ n [] [] s s₂ hP hstep

theorem c6_cycle_closure_witness :
    (⟨["A", "B", "C", "A"], 3, ["waiting", "waiting", "waiting"]⟩ :
        CycleRecord).path.head? =
      (⟨["A", "B", "C", "A"], 3, ["waiting", "waiting", "waiting"]⟩ :
        CycleRecord).path.getLast? ∧
    (⟨["A", "B", "C", "A"], 3, ["waiting", "waiting", "waiting"]⟩ :
        CycleRecord).path.length =
      (⟨["A", "B", "C", "A"], 3, ["waiting", "waiting", "waiting"]⟩ :
        CycleRecord).length + 1 :=
  c6_cycle_closure.1 storeTriangle "A" _ (by decide)

-- ============================================================================
-- TERMINATION (C9): measure lemmas and DFS fuel stability
-- ============================================================================

theorem unvisited_nil (univ : List String) : unvisited univ [] = univ.length := by
  simp [unvisited]

theorem unvisited_le (univ : List String) :
    ∀ (v v' : List String), (∀ x, x ∈ v → x ∈ v') →
      unvisited univ v' ≤ unvisited univ v := by
  induction univ with
  | nil => intro v v' _; exact Nat.le_refl _
  | cons a u ih =>
    intro v v' h
    simp only [unvisited, List.filter_cons]
    by_cases hav' : a ∈ v'
    · rw [show decide (a ∉ v') = false from by simp [hav']]
      by_cases hav : a ∈ v
      · rw [show decide (a ∉ v) = false from by simp [hav]]
        exact ih v v' h
      · rw [show decide (a ∉ v) = true from by simp [hav]]
        simp only [List.length_cons]
        exact Nat.le_succ_of_le (ih v v' h)
    · have hav : a ∉ v := fun ha => hav' (h a ha)
      rw [show decide (a ∉ v') = true from by simp [hav'],
        show decide (a ∉ v) = true from by simp [hav]]
      simp only [List.length_cons]
      exact Nat.succ_le_succ (ih v v' h)

theorem unvisited_strict (cur : String) :
    ∀ (univ v : List String), cur ∈ univ → cur ∉ v →
      unvisited univ (v ++ [cur]) < unvisited univ v := by
  intro univ
  induction univ with
  | nil => intro v h; simp at h
  | cons a u ih =>
    intro v hmem hnv
    simp only [unvisited, List.filter_cons]
    by_cases hac : a = cur
    · subst hac
      rw [show decide (a ∉ v ++ [a]) = false from by simp,
        show decide (a ∉ v) = true from by simp [hnv]]
      simp only [List.length_cons]
      exact Nat.lt_succ_of_le
        (unvisited_le u v (v ++ [a]) (fun x hx => List.mem_append.mpr (Or.inl hx)))
    · rcases List.mem_cons.mp hmem with he | hmem2
      · exact absurd he.symm hac
      · have heq : decide (a ∉ v ++ [cur]) = decide (a ∉ v) := by
          by_cases hav : a ∈ v
          · simp [hav]
          · simp [hav, hac]
        rw [heq]
        cases hd : decide (a ∉ v)
        · exact ih v hmem2 hnv
        · simp only [List.length_cons]
          exact Nat.succ_lt_succ (ih v hmem2 hnv)

theorem cycDfs_visited_mono (g : Store) :
    ∀ (fuel : Nat) (cur : String) (stack path : List String)
      (st st₂ : GraphQueries.CycleState),
      GraphQueries.cycDfs g fuel cur stack path st = some st₂ →
      ∀ x ∈ st.visited, x ∈ st₂.visited := by
  intro fuel
  induction fuel with
  | zero => intro cur stack path st st₂ h; simp [GraphQueries.cycDfs] at h
  | succ fuel ih =>
    intro cur stack path st st₂ h x hx
    rw [GraphQueries.cycDfs] at h
    by_cases hstk : cur ∈ stack
    · rw [if_pos hstk] at h
      have h2 := Option.some.inj h
      subst h2
      split
      · exact hx
      · exact hx
    · by_cases hv : cur ∈ st.visited
      · simp only [if_neg hstk, if_pos hv] at h
        have h2 := Option.some.inj h
        subst h2
        exact hx
      · simp only [if_neg hstk, if_neg hv] at h
        refine foldl_bind_pres (fun (s : GraphQueries.CycleState) => x ∈ s.visited) _ _ _
          (fun s hs => by
            have h2 := Option.some.inj hs
            subst h2
            exact List.mem_append.mpr (Or.inl hx))
          (fun link _ s s₂ hP hstep =>
            ih link.targetId (cur :: stack) (path ++ [cur]) s s₂ hstep x hP)
          st₂ h

theorem gcycDfs_visited_mono (nodeIds : List String) (edges : List GraphEdge) :
    ∀ (fuel : Nat) (cur : String) (stack : List String)
      (path : List GraphQueries.PathEntry) (st st₂ : GraphQueries.GraphCycleState),
      GraphQueries.gcycDfs nodeIds edges fuel cur stack path st = some st₂ →
      ∀ x ∈ st.visited, x ∈ st₂.visited := by
  intro fuel
  induction fuel with
  | zero => intro cur stack path st st₂ h; simp [GraphQueries.gcycDfs] at h
  | succ fuel ih =>
    intro cur stack path st st₂ h x hx
    rw [GraphQueries.gcycDfs] at h
    by_cases hstk : cur ∈ stack
    · rw [if_pos hstk] at h
      have h2 := Option.some.inj h
      subst h2
      by_cases hidx : List.findIdx (fun p => p.node == cur) path < path.length
      · simpa [hidx] using hx
      · simpa [hidx] using hx
    · by_cases hv : cur ∈ st.visited
      · simp only [if_neg hstk, if_pos hv] at h
        have h2 := Option.some.inj h
        subst h2
        exact hx
      · simp only [if_neg hstk, if_neg hv] at h
        refine foldl_bind_pres
          (fun (s : GraphQueries.GraphCycleState) => x ∈ s.visited) _ _ _
          (fun s hs => by
            have h2 := Option.some.inj hs
            subst h2
            exact List.mem_append.mpr (Or.inl hx))
          (fun e _ s s₂ hP hstep =>
            ih e.target (cur :: stack) (path ++ [⟨cur, e⟩]) s s₂ hstep x hP)
          st₂ h

theorem mem_adjacency {nodeIds : List String} {edges : List GraphEdge} {n : String}
    {e : GraphEdge} (h : e ∈ GraphQueries.adjacency nodeIds edges n) : e ∈ edges := by
  unfold GraphQueries.adjacency at h
  split at h
  · exact (List.mem_filter.mp h).1
  · simp at h

theorem cycDfs_stable (g : Store) (univ : List String)
    (huniv : ∀ l ∈ g.links, l.targetId ∈ univ) :
    ∀ (f₁ f₂ : Nat) (cur : String) (stack path : List String)
      (st : GraphQueries.CycleState),
      cur ∈ univ →
      unvisited univ st.visited < f₁ → unvisited univ st.visited < f₂ →
      GraphQueries.cycDfs g f₁ cur stack path st =
        GraphQueries.cycDfs g f₂ cur stack path st := by
  intro f₁
  induction f₁ with
  | zero => intro f₂ cur stack path st _ h1 _; omega
  | succ f₁ ih =>
    intro f₂ cur stack path st hcur h1 h2
    obtain ⟨f₂, rfl⟩ : ∃ k, f₂ = k + 1 := ⟨f₂ - 1, by omega⟩
    rw [GraphQueries.cycDfs, GraphQueries.cycDfs]
    by_cases hstk : cur ∈ stack
    · rw [if_pos hstk, if_pos hstk]
    · by_cases hv : cur ∈ st.visited
      · rw [if_neg hstk, if_neg hstk, if_pos hv, if_pos hv]
      · simp only [if_neg hstk, if_neg hv]
        have hdec := unvisited_strict cur univ st.visited hcur hv
        refine foldl_bind_congr
          (fun (s : GraphQueries.CycleState) =>
            unvisited univ s.visited < f₁ ∧ unvisited univ s.visited < f₂)
          _ _ _ _ ?_ ?_ ?_
        · intro s hs
          have h3 := Option.some.inj hs
          subst h3
          constructor
          · show unvisited univ (st.visited ++ [cur]) < f₁
            omega
          · show unvisited univ (st.visited ++ [cur]) < f₂
            omega
        · intro link hlink s hQ
          exact ih f₂ link.targetId (cur :: stack) (path ++ [cur]) s
            (huniv link (mem_getAll_sourceId hlink).1) hQ.1 hQ.2
        · intro link _ s s₂ hQ hstep
          have hmono := cycDfs_visited_mono g f₁ link.targetId (cur :: stack)
            (path ++ [cur]) s s₂ hstep
          have hle := unvisited_le univ s.visited s₂.visited hmono
          exact ⟨by omega, by omega⟩

theorem gcycDfs_stable (nodeIds : List String) (edges : List GraphEdge)
    (univ : List String) (huniv : ∀ e ∈ edges, e.target ∈ univ) :
    ∀ (f₁ f₂ : Nat) (cur : String) (stack : List String)
      (path : List GraphQueries.PathEntry) (st : GraphQueries.GraphCycleState),
      cur ∈ univ →
      unvisited univ st.visited < f₁ → unvisited univ st.visited < f₂ →
      GraphQueries.gcycDfs nodeIds edges f₁ cur stack path st =
        GraphQueries.gcycDfs nodeIds edges f₂ cur stack path st := by
  intro f₁
  induction f₁ with
  | zero => intro f₂ cur stack path st _ h1 _; omega
  | succ f₁ ih =>
    intro f₂ cur stack path st hcur h1 h2
    obtain ⟨f₂, rfl⟩ : ∃ k, f₂ = k + 1 := ⟨f₂ - 1, by omega⟩
    rw [GraphQueries.gcycDfs, GraphQueries.gcycDfs]
    by_cases hstk : cur ∈ stack
    · rw [if_pos hstk, if_pos hstk]
    · by_cases hv : cur ∈ st.visited
      · rw [if_neg hstk, if_neg hstk, if_pos hv, if_pos hv]
      · simp only [if_neg hstk, if_neg hv]
        have hdec := unvisited_strict cur univ st.visited hcur hv
        refine foldl_bind_congr
          (fun (s : GraphQueries.GraphCycleState) =>
            unvisited univ s.visited < f₁ ∧ unvisited univ s.visited < f₂)
          _ _ _ _ ?_ ?_ ?_
        · intro s hs
          have h3 := Option.some.inj hs
          subst h3
          constructor
          · show unvisited univ (st.visited ++ [cur]) < f₁
            omega
          · show unvisited univ (st.visited ++ [cur]) < f₂
            omega
        · intro e he s hQ
          exact ih f₂ e.target (cur :: stack) (path ++ [⟨cur, e⟩]) s
            (huniv e (mem_adjacency he)) hQ.1 hQ.2
        · intro e _ s s₂ hQ hstep
          have hmono := gcycDfs_visited_mono nodeIds edges f₁ e.target (cur :: stack)
            (path ++ [⟨cur, e⟩]) s s₂ hstep
          have hle := unvisited_le univ s.visited s₂.visited hmono
          exact ⟨by omega, by omega⟩

theorem detectCyclesF_stable (g : Store) (seed : String) (f : Nat)
    (hf : GraphQueries.cycFuel g ≤ f) :
    GraphQueries.detectCyclesF f g seed = GraphQueries.detectCycles g seed := by
  unfold GraphQueries.detectCycles GraphQueries.detectCyclesF
  rw [cycDfs_stable g (seed :: g.links.map (fun l => l.targetId))
    (fun l hl => List.mem_cons.mpr (Or.inr (List.mem_map.mpr ⟨l, hl, rfl⟩)))
    f (GraphQueries.cycFuel g) seed [] [] ⟨[], []⟩
    (List.mem_cons.mpr (Or.inl rfl)) ?_ ?_]
  · show unvisited (seed :: g.links.map (fun l => l.targetId)) [] < f
    rw [unvisited_nil]
    simp only [List.length_cons, List.length_map]
    simp only [GraphQueries.cycFuel] at hf
    omega
  · show unvisited (seed :: g.links.map (fun l => l.targetId)) [] <
      GraphQueries.cycFuel g
    rw [unvisited_nil]
    simp only [List.length_cons, List.length_map, GraphQueries.cycFuel]
    omega

theorem detectCyclesInGraphF_stable (nodeIds : List String) (edges : List GraphEdge)
    (f : Nat) (hf : GraphQueries.gcycFuel nodeIds edges ≤ f) :
    GraphQueries.detectCyclesInGraphF f nodeIds edges =
      GraphQueries.detectCyclesInGraph nodeIds edges := by
  unfold GraphQueries.detectCyclesInGraph GraphQueries.detectCyclesInGraphF
  have hlen : unvisited (nodeIds ++ edges.map (fun e => e.target)) [] <
      GraphQueries.gcycFuel nodeIds edges := by
    rw [unvisited_nil]
    simp [GraphQueries.gcycFuel]
  have hlenf : unvisited (nodeIds ++ edges.map (fun e => e.target)) [] < f := by
    have := hlen
    omega
  rw [foldl_bind_congr
    (fun (s : GraphQueries.GraphCycleState) =>
      unvisited (nodeIds ++ edges.map (fun e => e.target)) s.visited < f ∧
      unvisited (nodeIds ++ edges.map (fun e => e.target)) s.visited <
        GraphQueries.gcycFuel nodeIds edges)
    (fun n s => if n ∈ s.visited then some s
      else GraphQueries.gcycDfs nodeIds edges f n [] [] s)
    (fun n s => if n ∈ s.visited then some s
      else GraphQueries.gcycDfs nodeIds edges (GraphQueries.gcycFuel nodeIds edges)
        n [] [] s)
    nodeIds (some ⟨[], []⟩)
    (fun s hs => by
      have h2 := Option.some.inj hs
      subst h2
      exact ⟨hlenf, hlen⟩)
    (fun n hn s hQ => by
      by_cases hvs : n ∈ s.visited
      · simp only [if_pos hvs]
      · simp only [if_neg hvs]
        exact gcycDfs_stable nodeIds edges (nodeIds ++ edges.map (fun e => e.target))
          (fun e he => List.mem_append.mpr (Or.inr (List.mem_map.mpr ⟨e, he, rfl⟩)))
          f (GraphQueries.gcycFuel nodeIds edges) n [] [] s
          (List.mem_append.mpr (Or.inl hn)) hQ.1 hQ.2)
    (fun n _ s s₂ hQ hstep => by
      by_cases hvs : n ∈ s.visited
      · simp only [if_pos hvs] at hstep
        have h2 := Option.some.inj hstep
        subst h2
        exact hQ
      · simp only [if_neg hvs] at hstep
        have hmono := gcycDfs_visited_mono nodeIds edges f n [] [] s s₂ hstep
        have hle := unvisited_le (nodeIds ++ edges.map (fun e => e.target))
          s.visited s₂.visited hmono
        exact ⟨by omega, by omega⟩)]

theorem backlinksGo_stable (g : Store) (opts : QueryOptions) :
    ∀ (f₁ f₂ : Nat) (cur : String) (d : Int) (st : WalkState),
      (opts.depth - d).toNat < f₁ → (opts.depth - d).toNat < f₂ →
      GraphQueries.backlinksGo g opts f₁ cur d st =
        GraphQueries.backlinksGo g opts f₂ cur d st := by
  intro f₁
  induction f₁ with
  | zero => intro f₂ cur d st h1 _; omega
  | succ f₁ ih =>
    intro f₂ cur d st h1 h2
    obtain ⟨f₂, rfl⟩ : ∃ k, f₂ = k + 1 := ⟨f₂ - 1, by omega⟩
    rw [GraphQueries.backlinksGo, GraphQueries.backlinksGo]
    by_cases hgt : d > opts.depth
    · rw [if_pos hgt, if_pos hgt]
    · by_cases hv : cur ∈ st.visited
      · rw [if_neg hgt, if_neg hgt, if_pos hv, if_pos hv]
      · simp only [if_neg hgt, if_neg hv]
        refine foldl_ext _ _ _ _ ?_
        intro s link _
        by_cases hrej : typeRejects opts.linkType link
        · simp [hrej]
        · simp only [if_neg hrej]
          cases hfind : TaskStore.getById g link.sourceId with
          | none => rfl
          | some sourceTask =>
            by_cases hrec : opts.includeIndirect = true ∧ d < opts.depth
            · simp only [if_pos hrec]
              obtain ⟨_, hdlt⟩ := hrec
              exact ih f₂ link.sourceId (d + 1) _ (by omega) (by omega)
            · simp only [if_neg hrec]

theorem forwardGo_stable (g : Store) (opts : QueryOptions) :
    ∀ (f₁ f₂ : Nat) (cur : String) (d : Int) (st : WalkState),
      (opts.depth - d).toNat < f₁ → (opts.depth - d).toNat < f₂ →
      GraphQueries.forwardGo g opts f₁ cur d st =
        GraphQueries.forwardGo g opts f₂ cur d st := by
  intro f₁
  induction f₁ with
  | zero => intro f₂ cur d st h1 _; omega
  | succ f₁ ih =>
    intro f₂ cur d st h1 h2
    obtain ⟨f₂, rfl⟩ : ∃ k, f₂ = k + 1 := ⟨f₂ - 1, by omega⟩
    rw [GraphQueries.forwardGo, GraphQueries.forwardGo]
    by_cases hgt : d > opts.depth
    · rw [if_pos hgt, if_pos hgt]
    · by_cases hv : cur ∈ st.visited
      · rw [if_neg hgt, if_neg hgt, if_pos hv, if_pos hv]
      · simp only [if_neg hgt, if_neg hv]
        refine foldl_ext _ _ _ _ ?_
        intro s link _
        by_cases hrej : typeRejects opts.linkType link
        · simp [hrej]
        · simp only [if_neg hrej]
          cases hfind : TaskStore.getById g link.targetId with
          | none => rfl
          | some targetTask =>
            by_cases hrec : opts.includeIndirect = true ∧ d < opts.depth
            · simp only [if_pos hrec]
              obtain ⟨_, hdlt⟩ := hrec
              exact ih f₂ link.targetId (d + 1) _ (by omega) (by omega)
            · simp only [if_neg hrec]

theorem relatedGo_stable (g : Store) (ropts : RelatedOptions) :
    ∀ (f₁ f₂ : Nat) (cur : String) (d : Int) (st : RelatedState),
      (ropts.depth + 1 - d).toNat < f₁ → (ropts.depth + 1 - d).toNat < f₂ →
      GraphQueries.relatedGo g ropts f₁ cur d st =
        GraphQueries.relatedGo g ropts f₂ cur d st := by
  intro f₁
  induction f₁ with
  | zero => intro f₂ cur d st h1 _; omega
  | succ f₁ ih =>
    intro f₂ cur d st h1 h2
    obtain ⟨f₂, rfl⟩ : ∃ k, f₂ = k + 1 := ⟨f₂ - 1, by omega⟩
    rw [GraphQueries.relatedGo, GraphQueries.relatedGo]
    by_cases hgt : d > ropts.depth
    · rw [if_pos hgt, if_pos hgt]
    · by_cases hv : cur ∈ st.visited
      · rw [if_neg hgt, if_neg hgt, if_pos hv, if_pos hv]
      · simp only [if_neg hgt, if_neg hv]
        cases hfind : TaskStore.getById g cur with
        | none => rfl
        | some task =>
          dsimp only
          have hout : ∀ (s : RelatedState),
              (LinkStore.getAll g { sourceId := some cur }).foldl (fun s link =>
                if typesReject ropts.linkTypes link then s
                else GraphQueries.relatedGo g ropts f₁ link.targetId (d + 1)
                  { s with edges := s.edges ++ [edgeOfLink link] }) s =
              (LinkStore.getAll g { sourceId := some cur }).foldl (fun s link =>
                if typesReject ropts.linkTypes link then s
                else GraphQueries.relatedGo g ropts f₂ link.targetId (d + 1)
                  { s with edges := s.edges ++ [edgeOfLink link] }) s := by
            intro s
            refine foldl_ext _ _ _ _ ?_
            intro s2 link _
            by_cases hrej : typesReject ropts.linkTypes link
            · simp [hrej]
            · simp only [if_neg hrej]
              exact ih f₂ link.targetId (d + 1) _ (by omega) (by omega)
          rw [hout]
          refine foldl_ext _ _ _ _ ?_
          intro s2 link _
          by_cases hrej : typesReject ropts.linkTypes link
          · simp [hrej]
          · simp only [if_neg hrej]
            exact ih f₂ link.sourceId (d + 1) _ (by omega) (by omega)

theorem blockingGo_stable (g : Store) :
    ∀ (f₁ f₂ : Nat) (cur : String) (d : Nat) (st : ChainState),
      11 - d < f₁ → 11 - d < f₂ →
      GraphQueries.blockingGo g f₁ cur d st = GraphQueries.blockingGo g f₂ cur d st := by
  intro f₁
  induction f₁ with
  | zero => intro f₂ cur d st h1 _; omega
  | succ f₁ ih =>
    intro f₂ cur d st h1 h2
    obtain ⟨f₂, rfl⟩ : ∃ k, f₂ = k + 1 := ⟨f₂ - 1, by omega⟩
    rw [GraphQueries.blockingGo, GraphQueries.blockingGo]
    by_cases hv : cur ∈ st.visited
    · rw [if_pos hv, if_pos hv]
    · by_cases hcap : d > 10
      · rw [if_neg hv, if_neg hv, if_pos hcap, if_pos hcap]
      · simp only [if_neg hv, if_neg hcap]
        refine foldl_ext _ _ _ _ ?_
        intro s link _
        cases hfind : TaskStore.getById g link.sourceId with
        | none => rfl
        | some blockedTask =>
          exact ih f₂ link.sourceId (d + 1) _ (by omega) (by omega)

theorem dependencyGo_stable (g : Store) :
    ∀ (f₁ f₂ : Nat) (cur : String) (d : Nat) (st : ChainState),
      11 - d < f₁ → 11 - d < f₂ →
      GraphQueries.dependencyGo g f₁ cur d st =
        GraphQueries.dependencyGo g f₂ cur d st := by
  intro f₁
  induction f₁ with
  | zero => intro f₂ cur d st h1 _; omega
  | succ f₁ ih =>
    intro f₂ cur d st h1 h2
    obtain ⟨f₂, rfl⟩ : ∃ k, f₂ = k + 1 := ⟨f₂ - 1, by omega⟩
    rw [GraphQueries.dependencyGo, GraphQueries.dependencyGo]
    by_cases hv : cur ∈ st.visited
    · rw [if_pos hv, if_pos hv]
    · by_cases hcap : d > 10
      · rw [if_neg hv, if_neg hv, if_pos hcap, if_pos hcap]
      · simp only [if_neg hv, if_neg hcap]
        refine foldl_ext _ _ _ _ ?_
        intro s link _
        cases hfind : TaskStore.getById g link.targetId with
        | none => rfl
        | some dependencyTask =>
          exact ih f₂ link.targetId (d + 1) _ (by omega) (by omega)

/-- C9: every traversal of the query surface and the cycle detector is
bounded.  Each fueled core is stable at its canonical fuel: giving any
fuel at least the canonical bound — derived from the caller depth limit,
the hard cap of 10 in the chains, or the visited set (one step per distinct
node) in the DFS detectors — produces the public (terminating) result, so
no traversal needs more than boundedly many steps on any finite graph,
cyclic or not.  `getOrphanTasks` is a single non-recursive pass and
`getNeighborhood` / `getTasksInCycles` are compositions of the covered
cores. -/
theorem c9_termination (g : Store) (seed : String) (opts : QueryOptions)
    (ropts : RelatedOptions) (nodeIds : List String) (edges : List GraphEdge)
    (f : Nat) :
    (GraphQueries.backlinksFuel opts ≤ f →
      GraphQueries.getBacklinksF f g seed opts = GraphQueries.getBacklinks g seed opts) ∧
    (GraphQueries.backlinksFuel opts ≤ f →
      GraphQueries.getForwardLinksF f g seed opts =
        GraphQueries.getForwardLinks g seed opts) ∧
    (GraphQueries.relatedFuel ropts ≤ f →
      GraphQueries.getRelatedGraphF f g seed ropts =
        GraphQueries.getRelatedGraph g seed ropts) ∧
    (GraphQueries.chainFuel ≤ f →
      GraphQueries.getBlockingChainF f g seed = GraphQueries.getBlockingChain g seed) ∧
    (GraphQueries.chainFuel ≤ f →
      GraphQueries.getDependencyChainF f g seed =
        GraphQueries.getDependencyChain g seed) ∧
    (2 ≤ f →
      GraphQueries.getNeighborhoodF f g seed = GraphQueries.getNeighborhood g seed) ∧
    (GraphQueries.cycFuel g ≤ f →
      GraphQueries.detectCyclesF f g seed = GraphQueries.detectCycles g seed) ∧
    (GraphQueries.gcycFuel nodeIds edges ≤ f →
      GraphQueries.detectCyclesInGraphF f nodeIds edges =
        GraphQueries.detectCyclesInGraph nodeIds edges) ∧
    (GraphQueries.cycFuel g ≤ f →
      GraphQueries.getTasksInCyclesF f g = GraphQueries.getTasksInCycles g) := by
  refine ⟨?_, ?_, ?_, ?_, ?_, ?_, ?_, ?_, ?_⟩
  · intro hf
    simp only [GraphQueries.backlinksFuel] at hf
    unfold GraphQueries.getBacklinks GraphQueries.getBacklinksF
    rw [backlinksGo_stable g opts f (GraphQueries.backlinksFuel opts) seed 1 ⟨[], []⟩
      (by omega) (by simp only [GraphQueries.backlinksFuel]; omega)]
  · intro hf
    simp only [GraphQueries.backlinksFuel] at hf
    unfold GraphQueries.getForwardLinks GraphQueries.getForwardLinksF
    rw [forwardGo_stable g opts f (GraphQueries.backlinksFuel opts) seed 1 ⟨[], []⟩
      (by omega) (by simp only [GraphQueries.backlinksFuel]; omega)]
  · intro hf
    simp only [GraphQueries.relatedFuel] at hf
    unfold GraphQueries.getRelatedGraph GraphQueries.getRelatedGraphF
    rw [relatedGo_stable g ropts f (GraphQueries.relatedFuel ropts) seed 1 ⟨[], [], []⟩
      (by omega) (by simp only [GraphQueries.relatedFuel]; omega)]
  · intro hf
    simp only [GraphQueries.chainFuel] at hf
    unfold GraphQueries.getBlockingChain GraphQueries.getBlockingChainF
    rw [blockingGo_stable g f GraphQueries.chainFuel seed 0 ⟨[], []⟩
      (by omega) (by simp only [GraphQueries.chainFuel]; omega)]
  · intro hf
    simp only [GraphQueries.chainFuel] at hf
    unfold GraphQueries.getDependencyChain GraphQueries.getDependencyChainF
    rw [dependencyGo_stable g f GraphQueries.chainFuel seed 0 ⟨[], []⟩
      (by omega) (by simp only [GraphQueries.chainFuel]; omega)]
  · intro hf
    unfold GraphQueries.getNeighborhood GraphQueries.getNeighborhoodF
    unfold GraphQueries.getBacklinksF GraphQueries.getForwardLinksF
    rw [backlinksGo_stable g { depth := 1 } f 2 seed 1 ⟨[], []⟩
        (by simp only [show ({ depth := 1 } : QueryOptions).depth = 1 from rfl]; omega)
        (by simp only [show ({ depth := 1 } : QueryOptions).depth = 1 from rfl]; omega),
      forwardGo_stable g { depth := 1 } f 2 seed 1 ⟨[], []⟩
        (by simp only [show ({ depth := 1 } : QueryOptions).depth = 1 from rfl]; omega)
        (by simp only [show ({ depth := 1 } : QueryOptions).depth = 1 from rfl]; omega)]
  · intro hf
    exact detectCyclesF_stable g seed f hf
  · intro hf
    exact detectCyclesInGraphF_stable nodeIds edges f hf
  · intro hf
    have hstab : ∀ x, GraphQueries.detectCyclesF f g x =
        GraphQueries.detectCyclesF (GraphQueries.cycFuel g) g x :=
      fun x => detectCyclesF_stable g x f hf
    have hres : (TaskStore.getAll g (some 10000)).foldl
        (fun (acc : List String × List GraphQueries.CycleInfo) task =>
          if (GraphQueries.detectCyclesF f g task.id).hasCycles = true then
            (GraphQueries.detectCyclesF f g task.id).cycles.foldl
              (fun (acc2 : List String × List GraphQueries.CycleInfo) cycle =>
                (cycle.path.foldl GraphQueries.addUnique acc2.1,
                 acc2.2 ++ [⟨cycle.path, cycle.length, cycle.linkTypes, cycle.path⟩])) acc
          else acc) ([], []) =
      (TaskStore.getAll g (some 10000)).foldl
        (fun (acc : List String × List GraphQueries.CycleInfo) task =>
          if (GraphQueries.detectCyclesF (GraphQueries.cycFuel g) g task.id).hasCycles =
              true then
            (GraphQueries.detectCyclesF (GraphQueries.cycFuel g) g task.id).cycles.foldl
              (fun (acc2 : List String × List GraphQueries.CycleInfo) cycle =>
                (cycle.path.foldl GraphQueries.addUnique acc2.1,
                 acc2.2 ++ [⟨cycle.path, cycle.length, cycle.linkTypes, cycle.path⟩])) acc
          else acc) ([], []) := by
      refine foldl_ext _ _ _ _ ?_
      intro acc task _
      rw [hstab task.id]
    unfold GraphQueries.getTasksInCycles GraphQueries.getTasksInCyclesF
    dsimp only
    rw [hres]

theorem c9_termination_witness :
    GraphQueries.detectCyclesF 50 storeTriangle "A" =
      GraphQueries.detectCycles storeTriangle "A" :=
  (c9_termination storeTriangle "A" {} {} [] [] 50).2.2.2.2.2.2.1 (by decide)

end DashPlus
